import Mathlib

/-!
Shallow embedding of the core logic of `arcteryx-outlet-tracker`:

* the inventory diff/merge engine (`compareInventory`, `mergeInventory`,
  `hasChanges`) from the inventory module;
* the size matcher (`sizeMatches`) and the pure tile-extraction rules
  (price scanning, discount computation, size filtering) from
  `src/scraper.ts`.

Prices are JavaScript numbers in the source; they are modelled as `ℚ`.
JavaScript `Map` built from an entry list has last-write-wins semantics,
modelled by `mapGet`; JavaScript `||` on strings/numbers treats `""` and
`0` as falsy, modelled explicitly where the source relies on it.
-/

/-- Canonical product record, from `Product` in `src/types.ts`. -/
structure Product where
  id : String
  name : String
  price : ℚ
  originalPrice : ℚ
  discount : ℚ
  url : String
  image : String
  sizes : List String
  colors : List String
  category : String
  firstSeen : String
deriving DecidableEq

/-- Snapshot record, from `InventoryState` in `src/types.ts`. -/
structure InventoryState where
  lastUpdated : String
  products : List Product
deriving DecidableEq

/-- One `priceDrops` entry: `{ product, previousPrice }` in `src/types.ts`. -/
structure PriceDrop where
  product : Product
  previousPrice : ℚ
deriving DecidableEq

/-- Diff result, from `InventoryChanges` in `src/types.ts`. -/
structure InventoryChanges where
  newProducts : List Product
  priceDrops : List PriceDrop
  removedProducts : List Product
deriving DecidableEq

/-- Per-category scrape result, from `ScrapeResult` in `src/types.ts`. -/
structure ScrapeResult where
  products : List Product
  scrapedAt : String
  category : String
deriving DecidableEq

/-- `scrapeResults.flatMap((r) => r.products)`. -/
def currentProductsOf (scrapeResults : List ScrapeResult) : List Product :=
  scrapeResults.flatMap (fun r => r.products)

/-- `stored?.products || []`: a JS array is always truthy, so only
`undefined` falls back to `[]`. -/
def storedProductsOf (stored : Option InventoryState) : List Product :=
  match stored with
  | some st => st.products
  | none => []

/-- Lookup in `new Map(ps.map((p) => [p.id, p]))`: later entries overwrite
earlier ones, so `.get(k)` returns the LAST product with id `k`. -/
def mapGet (ps : List Product) (k : String) : Option Product :=
  ps.reverse.find? (fun p => p.id == k)

/-- `.has(k)` on the same map: some entry has key `k`. -/
def mapHas (ps : List Product) (k : String) : Bool :=
  ps.any (fun p => p.id == k)

/-- `compareInventory` from the inventory module.  The source's single pass
over `currentProducts` pushes into `newProducts` when the id is absent from
`storedMap` and into `priceDrops` when present with a strictly lower current
price; expressed as a `filter` and a `filterMap` over the same list, which
produce the same arrays in the same order. -/
def compareInventory (stored : Option InventoryState)
    (scrapeResults : List ScrapeResult) : InventoryChanges :=
  let currentProducts := currentProductsOf scrapeResults
  let storedProducts := storedProductsOf stored
  { newProducts :=
      currentProducts.filter (fun p => (mapGet storedProducts p.id).isNone)
    priceDrops :=
      currentProducts.filterMap (fun p =>
        match mapGet storedProducts p.id with
        | none => none
        | some existing =>
          if p.price < existing.price then
            some ⟨p, existing.price⟩
          else
            none)
    removedProducts :=
      storedProducts.filter (fun p => !(mapHas currentProducts p.id)) }

/-- The body of the map in `mergeInventory`:
`{ ...product, firstSeen: existing?.firstSeen || product.firstSeen }`.
JS `||` falls back when `existing` is `undefined` or when the stored
`firstSeen` is the falsy empty string. -/
def mergeOne (storedProducts : List Product) (product : Product) : Product :=
  match mapGet storedProducts product.id with
  | some existing =>
    { product with
      firstSeen :=
        if existing.firstSeen = "" then product.firstSeen
        else existing.firstSeen }
  | none => product

/-- `mergeInventory` from the inventory module.  The source sets
`lastUpdated` to `new Date().toISOString()`; the clock reading is passed in
as `now`. -/
def mergeInventory (now : String) (stored : Option InventoryState)
    (scrapeResults : List ScrapeResult) : InventoryState :=
  { lastUpdated := now
    products := (currentProductsOf scrapeResults).map
      (mergeOne (storedProductsOf stored)) }

/-- `hasChanges` from the inventory module. -/
def hasChanges (changes : InventoryChanges) : Bool :=
  decide (0 < changes.newProducts.length) ||
    decide (0 < changes.priceDrops.length)

/-! ### Lookup lemmas for the id-keyed map -/

theorem mapGet_eq_none_iff (ps : List Product) (k : String) :
    mapGet ps k = none ↔ ∀ p ∈ ps, p.id ≠ k := by
  simp [mapGet, List.find?_eq_none]

theorem mapGet_mem (ps : List Product) (k : String) (p : Product)
    (h : mapGet ps k = some p) : p ∈ ps ∧ p.id = k := by
  have h1 := List.mem_of_find?_eq_some h
  have h2 := List.find?_some h
  simp at h2
  exact ⟨List.mem_reverse.mp h1, h2⟩

theorem mapGet_isSome_iff (ps : List Product) (k : String) :
    (mapGet ps k).isSome ↔ ∃ p ∈ ps, p.id = k := by
  constructor
  · intro h
    obtain ⟨p, hp⟩ := Option.isSome_iff_exists.mp h
    obtain ⟨hmem, hid⟩ := mapGet_mem ps k p hp
    exact ⟨p, hmem, hid⟩
  · intro ⟨p, hmem, hid⟩
    cases hg : mapGet ps k with
    | some q => rfl
    | none => exact absurd hid ((mapGet_eq_none_iff ps k).mp hg p hmem)

theorem mapGet_eq_some_iff (ps : List Product) (k : String)
    (hnd : (ps.map Product.id).Nodup) (p : Product) :
    mapGet ps k = some p ↔ p ∈ ps ∧ p.id = k := by
  constructor
  · exact mapGet_mem ps k p
  · intro ⟨hmem, hid⟩
    cases hg : mapGet ps k with
    | none => exact absurd hid ((mapGet_eq_none_iff ps k).mp hg p hmem)
    | some q =>
      obtain ⟨hqmem, hqid⟩ := mapGet_mem ps k q hg
      have : p = q := by
        by_contra hne
        have := List.inj_on_of_nodup_map hnd hmem hqmem (by rw [hid, hqid])
        exact hne this
      rw [this]

theorem mapGet_self_of_nodup (ps : List Product)
    (hnd : (ps.map Product.id).Nodup) (p : Product) (hmem : p ∈ ps) :
    mapGet ps p.id = some p :=
  (mapGet_eq_some_iff ps p.id hnd p).mpr ⟨hmem, rfl⟩

theorem mapGet_perm (ps ps' : List Product)
    (hnd : (ps.map Product.id).Nodup) (hperm : ps.Perm ps') (k : String) :
    mapGet ps k = mapGet ps' k := by
  have hnd' : (ps'.map Product.id).Nodup := ((hperm.map Product.id).nodup_iff).mp hnd
  cases hg : mapGet ps k with
  | some p =>
    obtain ⟨hmem, hid⟩ := mapGet_mem ps k p hg
    exact ((mapGet_eq_some_iff ps' k hnd' p).mpr ⟨hperm.mem_iff.mp hmem, hid⟩).symm
  | none =>
    have := (mapGet_eq_none_iff ps k).mp hg
    exact ((mapGet_eq_none_iff ps' k).mpr
      (fun p hp => this p (hperm.mem_iff.mpr hp))).symm

theorem mapHas_iff (ps : List Product) (k : String) :
    mapHas ps k = true ↔ ∃ p ∈ ps, p.id = k := by
  simp [mapHas]

/-! ### Membership characterizations of the diff results -/

theorem mem_newProducts_iff (stored : Option InventoryState)
    (scrapeResults : List ScrapeResult) (x : Product) :
    x ∈ (compareInventory stored scrapeResults).newProducts ↔
      x ∈ currentProductsOf scrapeResults ∧
        mapGet (storedProductsOf stored) x.id = none := by
  simp [compareInventory, List.mem_filter, Option.isNone_iff_eq_none]

theorem mem_priceDrops_iff (stored : Option InventoryState)
    (scrapeResults : List ScrapeResult) (d : PriceDrop) :
    d ∈ (compareInventory stored scrapeResults).priceDrops ↔
      d.product ∈ currentProductsOf scrapeResults ∧
        ∃ s, mapGet (storedProductsOf stored) d.product.id = some s ∧
          d.product.price < s.price ∧ d.previousPrice = s.price := by
  simp only [compareInventory, List.mem_filterMap]
  constructor
  · intro ⟨p, hmem, hf⟩
    cases hg : mapGet (storedProductsOf stored) p.id with
    | none => simp [hg] at hf
    | some s =>
      simp only [hg] at hf
      by_cases hlt : p.price < s.price
      · rw [if_pos hlt] at hf
        injection hf with h
        subst h
        exact ⟨hmem, s, hg, hlt, rfl⟩
      · rw [if_neg hlt] at hf
        exact absurd hf (by simp)
  · intro ⟨hmem, s, hg, hlt, hprev⟩
    refine ⟨d.product, hmem, ?_⟩
    simp only [hg]
    rw [if_pos hlt]
    cases d with
    | mk p prev =>
      simp only at hprev ⊢
      rw [hprev]

theorem mem_removedProducts_iff (stored : Option InventoryState)
    (scrapeResults : List ScrapeResult) (x : Product) :
    x ∈ (compareInventory stored scrapeResults).removedProducts ↔
      x ∈ storedProductsOf stored ∧
        mapHas (currentProductsOf scrapeResults) x.id = false := by
  simp [compareInventory, List.mem_filter]

theorem mem_merge_iff (now : String) (stored : Option InventoryState)
    (scrapeResults : List ScrapeResult) (x : Product) :
    x ∈ (mergeInventory now stored scrapeResults).products ↔
      ∃ p ∈ currentProductsOf scrapeResults,
        mergeOne (storedProductsOf stored) p = x := by
  simp [mergeInventory, List.mem_map]

/-! ### Size matcher, from `sizeMatches` in `src/scraper.ts` -/

/-- `label.toUpperCase().replace(/[- ]/g, '')`, on the character list. -/
def normalizeSize (s : String) : List Char :=
  (s.toList.map Char.toUpper).filter (fun c => !(c == '-' || c == ' '))

/-- `sizeMatches` from `src/scraper.ts`: exact equality after
normalization, else the normalized filter is a leading part of the
normalized label (`normalized.startsWith(normalizedFilter)`). -/
def sizeMatches (sizeLabel : String) (filter : String) : Bool :=
  let normalized := normalizeSize sizeLabel
  let normalizedFilter := normalizeSize filter
  if normalized = normalizedFilter then true
  else if normalizedFilter.isPrefixOf normalized then true
  else false

/-! ### Price extraction, from `extractProducts` in `src/scraper.ts`

`tileText.match(/\$[\d,]+(?:\.\d{2})?/g)` scans the tile text left to
right for non-overlapping matches: a literal dollar sign, a maximal
nonempty run of digits and commas, then optionally a dot followed by
exactly two digits.  The fuel argument is the length of the remaining
text; every step consumes at least one character. -/

def scanPricesAux : Nat → List Char → List (List Char)
  | 0, _ => []
  | _ + 1, [] => []
  | fuel + 1, c :: rest =>
    if c = '$' then
      let run := rest.takeWhile (fun d => d.isDigit || d == ',')
      if run = [] then
        scanPricesAux fuel rest
      else
        match rest.drop run.length with
        | '.' :: d1 :: d2 :: rest3 =>
          if d1.isDigit && d2.isDigit then
            ('$' :: run ++ ['.', d1, d2]) :: scanPricesAux fuel rest3
          else
            ('$' :: run) :: scanPricesAux fuel (rest.drop run.length)
        | _ => ('$' :: run) :: scanPricesAux fuel (rest.drop run.length)
    else
      scanPricesAux fuel rest

def scanPrices (t : List Char) : List (List Char) :=
  scanPricesAux t.length t

/-- Decimal digit-run value, as used by `parseFloat` on the cleaned match. -/
def parseDigits (cs : List Char) : Nat :=
  cs.foldl (fun n c => n * 10 + (c.toNat - '0'.toNat)) 0

/-- `parseFloat(p.replace(/[$,]/g, ''))` on a regex match: the cleaned
text is a digit run optionally followed by a dot and two digits.
(`parseFloat` of an empty cleaned text is `NaN` in JS; that needs a match
consisting solely of commas, and is mapped to `0` here.) -/
def parsePrice (m : List Char) : ℚ :=
  let cleaned := m.filter (fun c => !(c == '$' || c == ','))
  let intPart := cleaned.takeWhile Char.isDigit
  match cleaned.drop intPart.length with
  | '.' :: ds => (parseDigits intPart : ℚ) + (parseDigits ds : ℚ) / (10 : ℚ) ^ ds.length
  | _ => (parseDigits intPart : ℚ)

/-- `.sort((a, b) => b - a)`: numeric descending sort.  Any sorting
algorithm produces the same value list for this comparator, so insertion
sort stands in for the engine's sort. -/
def sortDesc (l : List ℚ) : List ℚ :=
  List.insertionSort (fun a b => a ≥ b) l

/-- `const prices = priceMatches.map(parse...).sort((a, b) => b - a)`. -/
def pricesOfTile (t : List Char) : List ℚ :=
  sortDesc ((scanPrices t).map parsePrice)

/-- JS `x || y` on a number that may be `undefined`: `0` is falsy. -/
def jsOrQ (x : Option ℚ) (y : ℚ) : ℚ :=
  match x with
  | some v => if v = 0 then y else v
  | none => y

/-- `const originalPrice = prices[0] || 0`. -/
def tileOriginalPrice (t : List Char) : ℚ :=
  jsOrQ (pricesOfTile t).head? 0

/-- `const salePrice = prices[1] || prices[0] || 0`. -/
def tileSalePrice (t : List Char) : ℚ :=
  jsOrQ (pricesOfTile t)[1]? (jsOrQ (pricesOfTile t).head? 0)

/-- `Math.round`: floor of the argument plus one half. -/
def jsRound (q : ℚ) : ℤ :=
  (q + 1 / 2).floor

/-- The `discount` field of a pushed product:
`originalPrice > salePrice ? Math.round(((originalPrice - salePrice) / originalPrice) * 100) : 0`. -/
def tileDiscount (t : List Char) : ℚ :=
  if tileSalePrice t < tileOriginalPrice t then
    (jsRound ((tileOriginalPrice t - tileSalePrice t) / tileOriginalPrice t * 100) : ℚ)
  else 0

/-- The size-filter step at the end of `extractProducts`: applied only when
`sizeFilter` is truthy (present and nonempty); keeps a product when its
in-stock size list is empty or some entry matches the filter. -/
def applySizeFilter (sizeFilter : Option String) (products : List Product) : List Product :=
  match sizeFilter with
  | none => products
  | some f =>
    if f = "" then products
    else
      products.filter (fun p =>
        p.sizes.isEmpty || p.sizes.any (fun s => sizeMatches s f))

/-- Concrete product builder for witnesses and counterexamples; fields not
under test are held fixed. -/
def mkProd (id : String) (price : ℚ) (firstSeen : String) : Product :=
  ⟨id, "n", price, price, 0, "u", "", [], [], "c", firstSeen⟩

/-! ### Price pipeline lemmas -/

theorem jsRound_eq_round (q : ℚ) : jsRound q = round q := by
  rw [round_eq, jsRound, Rat.floor_def']
  exact Rat.floor_def.symm

theorem parseDigits_cast_nonneg (cs : List Char) : (0 : ℚ) ≤ (parseDigits cs : ℚ) :=
  Nat.cast_nonneg _

theorem parsePrice_nonneg (m : List Char) : 0 ≤ parsePrice m := by
  unfold parsePrice
  dsimp only
  split
  · positivity
  · positivity

theorem sortDesc_perm (l : List ℚ) : (sortDesc l).Perm l :=
  List.perm_insertionSort _ l

theorem sortDesc_sorted (l : List ℚ) : (sortDesc l).Sorted (fun a b => a ≥ b) :=
  List.sorted_insertionSort _ l

theorem jsOrQ_head_eq_headD (l : List ℚ) : jsOrQ l.head? 0 = l.headD 0 := by
  cases l with
  | nil => rfl
  | cons a rest =>
    simp only [jsOrQ, List.head?_cons, List.headD_cons]
    by_cases h : a = 0
    · rw [if_pos h, h]
    · rw [if_neg h]

theorem tileOriginalPrice_eq_headD (t : List Char) :
    tileOriginalPrice t = (pricesOfTile t).headD 0 :=
  jsOrQ_head_eq_headD _

theorem mem_pricesOfTile_nonneg (t : List Char) (x : ℚ)
    (hx : x ∈ pricesOfTile t) : 0 ≤ x := by
  have := (sortDesc_perm ((scanPrices t).map parsePrice)).mem_iff.mp hx
  obtain ⟨m, _, hm⟩ := List.mem_map.mp this
  rw [← hm]
  exact parsePrice_nonneg m

theorem jsOrQ_nonneg (x : Option ℚ) (y : ℚ)
    (hx : ∀ v, x = some v → 0 ≤ v) (hy : 0 ≤ y) : 0 ≤ jsOrQ x y := by
  cases x with
  | none => exact hy
  | some v =>
    simp only [jsOrQ]
    split
    · exact hy
    · exact hx v rfl

theorem tileOriginalPrice_nonneg (t : List Char) : 0 ≤ tileOriginalPrice t :=
  jsOrQ_nonneg _ _
    (fun v hv => mem_pricesOfTile_nonneg t v (List.mem_of_mem_head? hv)) le_rfl

theorem tileSalePrice_nonneg (t : List Char) : 0 ≤ tileSalePrice t :=
  jsOrQ_nonneg _ _
    (fun v hv => mem_pricesOfTile_nonneg t v (List.getElem?_mem hv))
    (tileOriginalPrice_nonneg t)

/-! ### Further helpers shared by the claim proofs -/

theorem mapHas_perm (l l' : List Product) (h : l.Perm l') (k : String) :
    mapHas l k = mapHas l' k := by
  have hbool : ∀ a b : Bool, (a = true ↔ b = true) → a = b := by decide
  apply hbool
  rw [mapHas_iff, mapHas_iff]
  exact ⟨fun ⟨p, hp, hk⟩ => ⟨p, h.mem_iff.mp hp, hk⟩,
    fun ⟨p, hp, hk⟩ => ⟨p, h.mem_iff.mpr hp, hk⟩⟩

theorem mergeOne_congr (sp sp' : List Product) (p : Product)
    (h : mapGet sp p.id = mapGet sp' p.id) : mergeOne sp p = mergeOne sp' p := by
  unfold mergeOne
  rw [h]

theorem mergeOne_frame (sp : List Product) (p : Product) :
    (mergeOne sp p).id = p.id ∧ (mergeOne sp p).name = p.name ∧
    (mergeOne sp p).price = p.price ∧
    (mergeOne sp p).originalPrice = p.originalPrice ∧
    (mergeOne sp p).discount = p.discount ∧ (mergeOne sp p).url = p.url ∧
    (mergeOne sp p).image = p.image ∧ (mergeOne sp p).sizes = p.sizes ∧
    (mergeOne sp p).colors = p.colors ∧
    (mergeOne sp p).category = p.category := by
  cases hg : mapGet sp p.id with
  | none => simp [mergeOne, hg]
  | some e => simp [mergeOne, hg]

/-! ### Claim C1 -/

/-- C1 (counterexample): as stated, the claim fails.  With a stored product
whose `firstSeen` is the empty string, the JS `||` in `mergeInventory`
treats it as falsy and keeps the current product's `firstSeen` instead:
id `"a"` is present in both the stored snapshot and the current list, yet
the merged product's `firstSeen` is `"t1"`, not the stored `""`. -/
theorem c1_counterexample :
    mapGet (storedProductsOf (some ⟨"t0", [mkProd "a" 3 ""]⟩)) "a" =
      some (mkProd "a" 3 "") ∧
    (mergeInventory "t2" (some ⟨"t0", [mkProd "a" 3 ""]⟩)
        [⟨[mkProd "a" 4 "t1"], "s", "c"⟩]).products = [mkProd "a" 4 "t1"] ∧
    (mkProd "a" 4 "t1").firstSeen = "t1" ∧
    (mkProd "a" 3 "").firstSeen = "" ∧
    ("t1" : String) ≠ "" := by
  decide

/-- C1 (amended): for every stored snapshot and current product list, a
product of `mergeInventory`'s output whose id the stored map resolves to a
stored product with NON-EMPTY `firstSeen` carries that stored `firstSeen`
unchanged, regardless of the current product's own `firstSeen`. -/
theorem c1_firstSeen_preserved_amended (now : String)
    (stored : Option InventoryState) (rs : List ScrapeResult)
    (pm s : Product)
    (hmem : pm ∈ (mergeInventory now stored rs).products)
    (hs : mapGet (storedProductsOf stored) pm.id = some s)
    (hne : s.firstSeen ≠ "") :
    pm.firstSeen = s.firstSeen := by
  obtain ⟨p, hp, hm⟩ := (mem_merge_iff now stored rs pm).mp hmem
  have hid : pm.id = p.id := by
    rw [← hm]
    exact (mergeOne_frame (storedProductsOf stored) p).1
  have hs' : mapGet (storedProductsOf stored) p.id = some s := by
    rw [← hid]
    exact hs
  rw [← hm]
  unfold mergeOne
  simp only [hs']
  rw [if_neg hne]

/-- C1 (witness): concrete run of the amended claim — stored `firstSeen`
`"t0"` is carried over the current `"t1"`. -/
theorem c1_witness :
    (mkProd "a" 4 "t0").firstSeen = (mkProd "a" 3 "t0").firstSeen :=
  c1_firstSeen_preserved_amended "t2" (some ⟨"t0", [mkProd "a" 3 "t0"]⟩)
    [⟨[mkProd "a" 4 "t1"], "s", "c"⟩] (mkProd "a" 4 "t0") (mkProd "a" 3 "t0")
    (by decide) (by decide) (by decide)

/-! ### Claim C2 -/

/-- C2 (counterexample): as stated, the claim fails for a snapshot with
duplicate ids.  Diffing `S = [a@3, a@5]` against its own product list
builds a last-write-wins stored map (`a ↦ 5`), so the first current
occurrence `a@3` is reported as a price drop. -/
theorem c2_counterexample :
    currentProductsOf [⟨[mkProd "a" 3 "t0", mkProd "a" 5 "t0"], "s", "c"⟩] =
      (⟨"t0", [mkProd "a" 3 "t0", mkProd "a" 5 "t0"]⟩ : InventoryState).products ∧
    (compareInventory (some ⟨"t0", [mkProd "a" 3 "t0", mkProd "a" 5 "t0"]⟩)
        [⟨[mkProd "a" 3 "t0", mkProd "a" 5 "t0"], "s", "c"⟩]).priceDrops =
      [⟨mkProd "a" 3 "t0", 5⟩] ∧
    [(⟨mkProd "a" 3 "t0", 5⟩ : PriceDrop)] ≠ [] := by
  decide

/-- C2 (amended): diffing a snapshot `S` against its own product list
always yields empty `newProducts` and `removedProducts`; `priceDrops` is
also empty provided the product ids of `S` are pairwise distinct (the data
model's uniqueness invariant). -/
theorem c2_diff_self_empty_amended (S : InventoryState)
    (rs : List ScrapeResult)
    (hcur : currentProductsOf rs = S.products) :
    (compareInventory (some S) rs).newProducts = [] ∧
    (compareInventory (some S) rs).removedProducts = [] ∧
    ((S.products.map Product.id).Nodup →
      (compareInventory (some S) rs).priceDrops = []) := by
  have hsp : storedProductsOf (some S) = S.products := rfl
  refine ⟨?_, ?_, ?_⟩
  · rw [List.eq_nil_iff_forall_not_mem]
    intro x hx
    obtain ⟨hxc, hxn⟩ := (mem_newProducts_iff (some S) rs x).mp hx
    rw [hcur] at hxc
    rw [hsp] at hxn
    exact (mapGet_eq_none_iff S.products x.id).mp hxn x hxc rfl
  · rw [List.eq_nil_iff_forall_not_mem]
    intro x hx
    obtain ⟨hxs, hxh⟩ := (mem_removedProducts_iff (some S) rs x).mp hx
    rw [hsp] at hxs
    have : mapHas (currentProductsOf rs) x.id = true := by
      rw [mapHas_iff, hcur]
      exact ⟨x, hxs, rfl⟩
    rw [this] at hxh
    exact Bool.noConfusion hxh
  · intro hnd
    rw [List.eq_nil_iff_forall_not_mem]
    intro d hd
    obtain ⟨hdc, s, hds, hlt, _⟩ := (mem_priceDrops_iff (some S) rs d).mp hd
    rw [hcur] at hdc
    rw [hsp] at hds
    have : s = d.product := by
      have h2 := mapGet_self_of_nodup S.products hnd d.product hdc
      exact Option.some.inj (hds.symm.trans h2)
    rw [this] at hlt
    exact lt_irrefl _ hlt

/-- C2 (witness): concrete duplicate-free snapshot diffed against itself
yields the empty change set. -/
theorem c2_witness :
    (compareInventory (some ⟨"t0", [mkProd "a" 3 "t0"]⟩)
        [⟨[mkProd "a" 3 "t0"], "s", "c"⟩]).newProducts = [] ∧
    (compareInventory (some ⟨"t0", [mkProd "a" 3 "t0"]⟩)
        [⟨[mkProd "a" 3 "t0"], "s", "c"⟩]).removedProducts = [] ∧
    (compareInventory (some ⟨"t0", [mkProd "a" 3 "t0"]⟩)
        [⟨[mkProd "a" 3 "t0"], "s", "c"⟩]).priceDrops = [] := by
  have h := c2_diff_self_empty_amended ⟨"t0", [mkProd "a" 3 "t0"]⟩
    [⟨[mkProd "a" 3 "t0"], "s", "c"⟩] (by decide)
  exact ⟨h.1, h.2.1, h.2.2 (by decide)⟩

/-! ### Claim C3 -/

/-- C3: a current product whose id resolves in the stored map appears in
`priceDrops` iff its price is strictly below the stored price (equal or
increased price is never reported — the condition mentions no other
field), and every reported `previousPrice` is the stored price. -/
theorem c3_priceDrops_rule (stored : Option InventoryState)
    (rs : List ScrapeResult) (p s : Product)
    (hmem : p ∈ currentProductsOf rs)
    (hs : mapGet (storedProductsOf stored) p.id = some s) :
    ((∃ prev, PriceDrop.mk p prev ∈ (compareInventory stored rs).priceDrops) ↔
      p.price < s.price) ∧
    (∀ prev, PriceDrop.mk p prev ∈ (compareInventory stored rs).priceDrops →
      prev = s.price) := by
  constructor
  · constructor
    · intro ⟨prev, hd⟩
      obtain ⟨_, s', hs', hlt, _⟩ := (mem_priceDrops_iff stored rs ⟨p, prev⟩).mp hd
      have hs'' : mapGet (storedProductsOf stored) p.id = some s' := hs'
      have : s' = s := Option.some.inj (hs''.symm.trans hs)
      rw [← this]
      exact hlt
    · intro hlt
      exact ⟨s.price,
        (mem_priceDrops_iff stored rs ⟨p, s.price⟩).mpr ⟨hmem, s, hs, hlt, rfl⟩⟩
  · intro prev hd
    obtain ⟨_, s', hs', _, hprev⟩ := (mem_priceDrops_iff stored rs ⟨p, prev⟩).mp hd
    have hs'' : mapGet (storedProductsOf stored) p.id = some s' := hs'
    have heq : s' = s := Option.some.inj (hs''.symm.trans hs)
    have hprev' : prev = s'.price := hprev
    rw [hprev', heq]

/-- C3 (witness): concrete price drop 100 → 80 is reported with
`previousPrice` 100. -/
theorem c3_witness :
    ((∃ prev, PriceDrop.mk (mkProd "b" 80 "t1") prev ∈
        (compareInventory (some ⟨"t0", [mkProd "b" 100 "t0"]⟩)
          [⟨[mkProd "b" 80 "t1"], "s", "c"⟩]).priceDrops) ↔
      (mkProd "b" 80 "t1").price < (mkProd "b" 100 "t0").price) ∧
    (∀ prev, PriceDrop.mk (mkProd "b" 80 "t1") prev ∈
        (compareInventory (some ⟨"t0", [mkProd "b" 100 "t0"]⟩)
          [⟨[mkProd "b" 80 "t1"], "s", "c"⟩]).priceDrops →
      prev = (mkProd "b" 100 "t0").price) :=
  c3_priceDrops_rule (some ⟨"t0", [mkProd "b" 100 "t0"]⟩)
    [⟨[mkProd "b" 80 "t1"], "s", "c"⟩] (mkProd "b" 80 "t1")
    (mkProd "b" 100 "t0") (by decide) (by decide)

/-! ### Claim C5 -/

/-- C5: `hasChanges` is true iff `newProducts` or `priceDrops` is
non-empty; in particular it is false whenever both are empty, however many
`removedProducts` there are. -/
theorem c5_hasChanges_iff :
    (∀ changes : InventoryChanges,
      hasChanges changes = true ↔
        (changes.newProducts ≠ [] ∨ changes.priceDrops ≠ [])) ∧
    (∀ removed : List Product,
      hasChanges ⟨[], [], removed⟩ = false) := by
  constructor
  · intro changes
    simp [hasChanges, List.length_pos]
  · intro removed
    simp [hasChanges]

/-! ### Claim C6 -/

/-- C6: `sizeMatches` is true exactly when, after uppercasing and deleting
every hyphen and space, the label equals the filter or has it as a leading
part; the spec's four examples evaluate accordingly. -/
theorem c6_sizeMatches_spec :
    (∀ label filter : String,
      sizeMatches label filter = true ↔
        (normalizeSize label = normalizeSize filter ∨
          (normalizeSize filter).isPrefixOf (normalizeSize label) = true)) ∧
    sizeMatches "L-R" "L" = true ∧
    sizeMatches "LR" "L-R" = true ∧
    sizeMatches "l r" "LR" = true ∧
    sizeMatches "M-R" "L" = false := by
  refine ⟨fun label filter => ?_, by decide, by decide, by decide, by decide⟩
  unfold sizeMatches
  dsimp only
  split
  · rename_i heq
    simp [heq]
  · rename_i heq
    split
    · rename_i hpre
      simp [heq, hpre]
    · rename_i hpre
      simp [heq, hpre]

/-! ### Claim C4 -/

/-- C4 (counterexample): as stated, the claim fails when the stored
snapshot has duplicate ids.  Swapping the two stored products that share
id `"a"` changes which one wins in the last-write-wins stored map, so the
set of price drops changes: `a@4` against stored `[a@3, a@5]` is reported
(previous price 5), but against the permuted `[a@5, a@3]` it is not. -/
theorem c4_counterexample :
    List.Perm [mkProd "a" 3 "t0", mkProd "a" 5 "t0"]
      [mkProd "a" 5 "t0", mkProd "a" 3 "t0"] ∧
    (compareInventory (some ⟨"t0", [mkProd "a" 3 "t0", mkProd "a" 5 "t0"]⟩)
        [⟨[mkProd "a" 4 "t1"], "s", "c"⟩]).priceDrops =
      [⟨mkProd "a" 4 "t1", 5⟩] ∧
    (compareInventory (some ⟨"t0", [mkProd "a" 5 "t0", mkProd "a" 3 "t0"]⟩)
        [⟨[mkProd "a" 4 "t1"], "s", "c"⟩]).priceDrops = [] := by
  decide

/-- C4 (amended): when the stored snapshot's product ids are pairwise
distinct (the data model's uniqueness invariant), permuting the stored
product list and the current product list leaves the membership of
`compareInventory`'s three collections and of `mergeInventory`'s product
list unchanged. -/
theorem c4_order_independence_amended (now : String)
    (st st' : Option InventoryState) (rs rs' : List ScrapeResult)
    (hst : (storedProductsOf st).Perm (storedProductsOf st'))
    (hcur : (currentProductsOf rs).Perm (currentProductsOf rs'))
    (hnd : ((storedProductsOf st).map Product.id).Nodup) :
    (∀ x, x ∈ (compareInventory st rs).newProducts ↔
      x ∈ (compareInventory st' rs').newProducts) ∧
    (∀ d, d ∈ (compareInventory st rs).priceDrops ↔
      d ∈ (compareInventory st' rs').priceDrops) ∧
    (∀ x, x ∈ (compareInventory st rs).removedProducts ↔
      x ∈ (compareInventory st' rs').removedProducts) ∧
    (∀ x, x ∈ (mergeInventory now st rs).products ↔
      x ∈ (mergeInventory now st' rs').products) := by
  have hget : ∀ k, mapGet (storedProductsOf st) k =
      mapGet (storedProductsOf st') k :=
    mapGet_perm _ _ hnd hst
  refine ⟨fun x => ?_, fun d => ?_, fun x => ?_, fun x => ?_⟩
  · rw [mem_newProducts_iff, mem_newProducts_iff, hget, hcur.mem_iff]
  · rw [mem_priceDrops_iff, mem_priceDrops_iff, hget, hcur.mem_iff]
  · rw [mem_removedProducts_iff, mem_removedProducts_iff, hst.mem_iff,
      mapHas_perm _ _ hcur]
  · rw [mem_merge_iff, mem_merge_iff]
    constructor
    · intro ⟨p, hp, hmo⟩
      refine ⟨p, hcur.mem_iff.mp hp, ?_⟩
      rw [← mergeOne_congr _ _ p (hget p.id)]
      exact hmo
    · intro ⟨p, hp, hmo⟩
      refine ⟨p, hcur.mem_iff.mpr hp, ?_⟩
      rw [mergeOne_congr _ _ p (hget p.id)]
      exact hmo

/-- C4 (witness): concrete permuted inputs (distinct stored ids `a`, `b`;
current lists split differently across scrape results) give the same
membership in all four collections. -/
theorem c4_witness :
    (∀ x, x ∈ (compareInventory
        (some ⟨"t0", [mkProd "a" 100 "t0", mkProd "b" 50 "t0"]⟩)
        [⟨[mkProd "a" 80 "t1", mkProd "c" 10 "t1"], "s", "m"⟩]).newProducts ↔
      x ∈ (compareInventory
        (some ⟨"t0", [mkProd "b" 50 "t0", mkProd "a" 100 "t0"]⟩)
        [⟨[mkProd "c" 10 "t1"], "s", "m"⟩,
          ⟨[mkProd "a" 80 "t1"], "s", "w"⟩]).newProducts) ∧
    (∀ d, d ∈ (compareInventory
        (some ⟨"t0", [mkProd "a" 100 "t0", mkProd "b" 50 "t0"]⟩)
        [⟨[mkProd "a" 80 "t1", mkProd "c" 10 "t1"], "s", "m"⟩]).priceDrops ↔
      d ∈ (compareInventory
        (some ⟨"t0", [mkProd "b" 50 "t0", mkProd "a" 100 "t0"]⟩)
        [⟨[mkProd "c" 10 "t1"], "s", "m"⟩,
          ⟨[mkProd "a" 80 "t1"], "s", "w"⟩]).priceDrops) ∧
    (∀ x, x ∈ (compareInventory
        (some ⟨"t0", [mkProd "a" 100 "t0", mkProd "b" 50 "t0"]⟩)
        [⟨[mkProd "a" 80 "t1", mkProd "c" 10 "t1"], "s", "m"⟩]).removedProducts ↔
      x ∈ (compareInventory
        (some ⟨"t0", [mkProd "b" 50 "t0", mkProd "a" 100 "t0"]⟩)
        [⟨[mkProd "c" 10 "t1"], "s", "m"⟩,
          ⟨[mkProd "a" 80 "t1"], "s", "w"⟩]).removedProducts) ∧
    (∀ x, x ∈ (mergeInventory "t2"
        (some ⟨"t0", [mkProd "a" 100 "t0", mkProd "b" 50 "t0"]⟩)
        [⟨[mkProd "a" 80 "t1", mkProd "c" 10 "t1"], "s", "m"⟩]).products ↔
      x ∈ (mergeInventory "t2"
        (some ⟨"t0", [mkProd "b" 50 "t0", mkProd "a" 100 "t0"]⟩)
        [⟨[mkProd "c" 10 "t1"], "s", "m"⟩,
          ⟨[mkProd "a" 80 "t1"], "s", "w"⟩]).products) :=
  c4_order_independence_amended "t2"
    (some ⟨"t0", [mkProd "a" 100 "t0", mkProd "b" 50 "t0"]⟩)
    (some ⟨"t0", [mkProd "b" 50 "t0", mkProd "a" 100 "t0"]⟩)
    [⟨[mkProd "a" 80 "t1", mkProd "c" 10 "t1"], "s", "m"⟩]
    [⟨[mkProd "c" 10 "t1"], "s", "m"⟩, ⟨[mkProd "a" 80 "t1"], "s", "w"⟩]
    (by decide) (by decide) (by decide)

/-! ### Claim C7 -/

/-- C7: the extracted discount is
`round((originalPrice - price) / originalPrice * 100)` when
`originalPrice > price` and `0` otherwise; a zero `originalPrice` always
yields discount `0` (rational division is total, so no division error
arises); the spec's numeric examples hold. -/
theorem c7_discount_formula :
    (∀ t : List Char,
      tileDiscount t =
        if tileSalePrice t < tileOriginalPrice t then
          ((round ((tileOriginalPrice t - tileSalePrice t) /
              tileOriginalPrice t * 100) : ℤ) : ℚ)
        else 0) ∧
    (∀ t : List Char, tileOriginalPrice t = 0 → tileDiscount t = 0) ∧
    tileDiscount "$80 $100".toList = 20 ∧
    tileDiscount "$100 $100".toList = 0 ∧
    tileOriginalPrice "$0".toList = 0 ∧
    tileDiscount "$0".toList = 0 := by
  refine ⟨fun t => ?_, fun t h0 => ?_, ?_, ?_, by decide, ?_⟩
  · unfold tileDiscount
    split
    · rw [jsRound_eq_round]
    · rfl
  · unfold tileDiscount
    rw [h0]
    rw [if_neg (not_lt.mpr (tileSalePrice_nonneg t))]
  · have h1 : tileOriginalPrice "$80 $100".toList = 100 := by decide
    have h2 : tileSalePrice "$80 $100".toList = 80 := by decide
    rw [tileDiscount, h1, h2]
    norm_num [jsRound_eq_round]
  · have h1 : tileOriginalPrice "$100 $100".toList = 100 := by decide
    have h2 : tileSalePrice "$100 $100".toList = 100 := by decide
    rw [tileDiscount, h1, h2]
    norm_num
  · have h1 : tileOriginalPrice "$0".toList = 0 := by decide
    have h2 : tileSalePrice "$0".toList = 0 := by decide
    rw [tileDiscount, h1, h2]
    norm_num

/-- C7 (witness): the zero-`originalPrice` case at the concrete tile text
`"$0"`. -/
theorem c7_witness : tileDiscount "$0".toList = 0 :=
  c7_discount_formula.2.1 "$0".toList (by decide)

/-! ### Claim C8 -/

/-- C8 (counterexample): as stated, the claim fails.  For tile text
`"$5 $0"` two price strings are found and sort descending to `[5, 0]`,
so the claimed `price` is the second-highest value `0`; but
`prices[1] || prices[0] || 0` treats the `0` as falsy and the extracted
sale price is `5`. -/
theorem c8_counterexample :
    pricesOfTile "$5 $0".toList = [5, 0] ∧
    tileSalePrice "$5 $0".toList = 5 ∧
    ((5 : ℚ) ≠ 0) := by
  decide

/-- C8 (amended): price extraction parses every currency-formatted
substring and sorts the values descending; `originalPrice` is the highest
value (`0` when none is found); `price` is the second-highest value when
that value is nonzero, and otherwise — only one price string, a zero
second value (JS falsy fallback), or no price at all — it equals
`originalPrice`. -/
theorem c8_price_extraction_amended (t : List Char) :
    (pricesOfTile t).Perm ((scanPrices t).map parsePrice) ∧
    (pricesOfTile t).Sorted (fun a b => a ≥ b) ∧
    (∀ x ∈ (scanPrices t).map parsePrice, x ≤ tileOriginalPrice t) ∧
    (pricesOfTile t ≠ [] → tileOriginalPrice t ∈ pricesOfTile t) ∧
    (pricesOfTile t = [] → tileOriginalPrice t = 0 ∧ tileSalePrice t = 0) ∧
    (∀ a, pricesOfTile t = [a] → tileSalePrice t = tileOriginalPrice t) ∧
    (∀ a b rest, pricesOfTile t = a :: b :: rest → b ≠ 0 →
      tileSalePrice t = b) ∧
    (∀ a b rest, pricesOfTile t = a :: b :: rest → b = 0 →
      tileSalePrice t = tileOriginalPrice t) := by
  refine ⟨sortDesc_perm _, sortDesc_sorted _, fun x hx => ?_, fun hne => ?_,
    fun hl => ?_, fun a hl => ?_, fun a b rest hl hb => ?_,
    fun a b rest hl hb => ?_⟩
  · have hx' : x ∈ pricesOfTile t := (sortDesc_perm _).mem_iff.mpr hx
    rw [tileOriginalPrice_eq_headD]
    cases hl : pricesOfTile t with
    | nil => rw [hl] at hx'; exact absurd hx' (List.not_mem_nil x)
    | cons a rest =>
      rw [hl] at hx'
      simp only [List.headD_cons]
      rcases List.mem_cons.mp hx' with h | h
      · rw [h]
      · have hsort := sortDesc_sorted ((scanPrices t).map parsePrice)
        rw [show sortDesc ((scanPrices t).map parsePrice) = pricesOfTile t
          from rfl, hl] at hsort
        exact List.rel_of_sorted_cons hsort x h
  · rw [tileOriginalPrice_eq_headD]
    cases hl : pricesOfTile t with
    | nil => exact absurd hl hne
    | cons a rest =>
      simp only [List.headD_cons]
      exact List.mem_cons_self a rest
  · constructor
    · rw [tileOriginalPrice_eq_headD, hl]
      rfl
    · simp [tileSalePrice, hl, jsOrQ]
  · simp [tileSalePrice, tileOriginalPrice, hl, jsOrQ]
  · simp [tileSalePrice, hl, jsOrQ, hb]
  · simp [tileSalePrice, tileOriginalPrice, hl, hb, jsOrQ]

/-- C8 (witness): two prices `$100`, `$80` (nonzero second-highest):
extracted sale price is the second-highest value 80. -/
theorem c8_witness : tileSalePrice "$80 $100".toList = 80 :=
  (c8_price_extraction_amended "$80 $100".toList).2.2.2.2.2.2.1
    100 80 [] (by decide) (by decide)

/-! ### Claim C9 -/

/-- Concrete product builder with a given in-stock size list. -/
def mkProdSizes (id : String) (sizes : List String) : Product :=
  ⟨id, "n", 1, 1, 0, "u", "", sizes, [], "c", "t"⟩

/-- C9: with a configured (nonempty) size filter, the output keeps exactly
the products whose in-stock size list is empty or contains a label
matching the filter; with the filter absent or empty, the product list is
returned unfiltered. -/
theorem c9_size_filter_spec :
    (∀ f : String, f ≠ "" → ∀ (ps : List Product) (p : Product),
      p ∈ applySizeFilter (some f) ps ↔
        p ∈ ps ∧ (p.sizes = [] ∨ ∃ s ∈ p.sizes, sizeMatches s f = true)) ∧
    (∀ ps, applySizeFilter none ps = ps) ∧
    (∀ ps, applySizeFilter (some "") ps = ps) := by
  refine ⟨fun f hf ps p => ?_, fun ps => rfl, fun ps => ?_⟩
  · simp only [applySizeFilter]
    rw [if_neg hf, List.mem_filter]
    simp [List.isEmpty_iff, List.any_eq_true]
  · simp [applySizeFilter]

/-- C9 (witness): filter `"L"`: a product stocking `"L-R"` passes the
membership characterization. -/
theorem c9_witness :
    mkProdSizes "x" ["L-R"] ∈ applySizeFilter (some "L")
        [mkProdSizes "x" ["L-R"], mkProdSizes "y" ["M-R"]] ↔
      mkProdSizes "x" ["L-R"] ∈
          [mkProdSizes "x" ["L-R"], mkProdSizes "y" ["M-R"]] ∧
        ((mkProdSizes "x" ["L-R"]).sizes = [] ∨
          ∃ s ∈ (mkProdSizes "x" ["L-R"]).sizes, sizeMatches s "L" = true) :=
  c9_size_filter_spec.1 "L" (by decide) _ _

/-! ### Claim C10 -/

/-- C10: every product of `mergeInventory`'s output agrees positionally
with the corresponding current product on every field other than
`firstSeen`; no stored value other than `firstSeen` is carried into the
merged snapshot. -/
theorem c10_merge_frame (now : String) (stored : Option InventoryState)
    (rs : List ScrapeResult) :
    (mergeInventory now stored rs).products.length =
      (currentProductsOf rs).length ∧
    ∀ i : Nat,
      ((mergeInventory now stored rs).products[i]?.map Product.id =
        (currentProductsOf rs)[i]?.map Product.id) ∧
      ((mergeInventory now stored rs).products[i]?.map Product.name =
        (currentProductsOf rs)[i]?.map Product.name) ∧
      ((mergeInventory now stored rs).products[i]?.map Product.price =
        (currentProductsOf rs)[i]?.map Product.price) ∧
      ((mergeInventory now stored rs).products[i]?.map Product.originalPrice =
        (currentProductsOf rs)[i]?.map Product.originalPrice) ∧
      ((mergeInventory now stored rs).products[i]?.map Product.discount =
        (currentProductsOf rs)[i]?.map Product.discount) ∧
      ((mergeInventory now stored rs).products[i]?.map Product.url =
        (currentProductsOf rs)[i]?.map Product.url) ∧
      ((mergeInventory now stored rs).products[i]?.map Product.image =
        (currentProductsOf rs)[i]?.map Product.image) ∧
      ((mergeInventory now stored rs).products[i]?.map Product.sizes =
        (currentProductsOf rs)[i]?.map Product.sizes) ∧
      ((mergeInventory now stored rs).products[i]?.map Product.colors =
        (currentProductsOf rs)[i]?.map Product.colors) ∧
      ((mergeInventory now stored rs).products[i]?.map Product.category =
        (currentProductsOf rs)[i]?.map Product.category) := by
  have hm : (mergeInventory now stored rs).products =
      (currentProductsOf rs).map (mergeOne (storedProductsOf stored)) := rfl
  refine ⟨by rw [hm, List.length_map], fun i => ?_⟩
  rw [hm, List.getElem?_map]
  cases hc : (currentProductsOf rs)[i]? with
  | none => simp
  | some p =>
    obtain ⟨h1, h2, h3, h4, h5, h6, h7, h8, h9, h10⟩ :=
      mergeOne_frame (storedProductsOf stored) p
    simp [h1, h2, h3, h4, h5, h6, h7, h8, h9, h10]
